import Mathlib

/-!
Verification of the scheduling core of the `threading` crate
(src/src/lib.rs): an elastic thread pool with a shared FIFO task queue,
two atomic counters (`active`, `waiting`), a floor size `min_num`, and a
sentinel-based shutdown signal.

The Rust source is shallowly embedded: the `usize` counters become `Nat`
with explicit wrapping arithmetic modulo 2^64, the task queue becomes a
`List`, tasks (boxed closures) become opaque identifiers, and the
concurrent parts become explicit event traces with a step function and a
validity predicate reflecting the program structure (a worker registers as
waiting only while it holds an active guard, and so on).
-/

namespace Threading

/-- Width of `usize` (the crate targets 64-bit platforms; all counter
arithmetic in the source is `AtomicUsize`, which wraps modulo 2^64).
Written as the numeral 18446744073709551616 = 2^64. -/
def W : Nat := 18446744073709551616

/-- `usize::max_value()`, stored into `active` by `impl Drop for Pool`
(lib.rs:152-157) as the shutdown sentinel. -/
def usizeMax : Nat := W - 1

/-- `AtomicUsize::fetch_add(1, _)` result value (lib.rs:39, `Count::add`):
wrapping increment. -/
def fetchAdd (c : Nat) : Nat := (c + 1) % W

/-- `AtomicUsize::fetch_sub(1, _)` result value (lib.rs:50, `Count::drop`):
wrapping decrement. -/
def fetchSub (c : Nat) : Nat := (c + (W - 1)) % W

/-- A task (`Truck`, a boxed `FnOnce`) is opaque; we model it by an
identifier. -/
abbrev Task := Nat

/-- `struct Inner` (lib.rs:26-32): the shared pool state. The condition
variable carries no data; the queue is the `VecDeque`, front at the list
head. -/
structure Inner where
  queue : List Task
  active : Nat
  waiting : Nat
  min_num : Nat

/-- `Pool::with_capacity(n)` (lib.rs:75-91): fresh state with
`min_num = n`, empty queue, zero counters, and `n` calls of
`self.thread(None)`. The second component lists the initial handle of each
spawned worker thread. -/
def Pool.with_capacity (n : Nat) : Inner × List (Option Task) :=
  (⟨[], 0, 0, n⟩, List.replicate n none)

/-- `Pool::new()` (lib.rs:55-73): identical to `with_capacity` at
`num_cpus::get()`. The detected hardware concurrency is an environment
input; it is passed here as the parameter `cpu_num`. -/
def Pool.new (cpu_num : Nat) : Inner × List (Option Task) :=
  (⟨[], 0, 0, cpu_num⟩, List.replicate cpu_num none)

/-- Result of one `Pool::spawn` call: the updated shared state, the task
handed to a freshly spawned thread (if any), and the number of
`notify_one` calls performed. -/
structure SpawnEffect where
  pool : Inner
  newThread : Option Task
  notified : Nat

/-- `Pool::spawn` (lib.rs:93-104): under the queue lock, read `waiting`;
if it is 0 call `self.thread(Some(handle))` (queue untouched, nobody
notified), else `queue.push_back(handle)` and `condvar.notify_one()`. -/
def Pool.spawn (s : Inner) (t : Task) : SpawnEffect :=
  if s.waiting = 0 then ⟨s, some t, 0⟩
  else ⟨{ s with queue := s.queue ++ [t] }, none, 1⟩

/-- The prelude of the worker closure in `Pool::thread` (lib.rs:110-114):
after incrementing `active`, run the initial task if one was attached,
before entering the generic loop. -/
def threadInitialTasks (handle : Option Task) : List Task :=
  match handle with
  | some h => [h]
  | none => []

/-- Which condition-variable wait the worker performs in its idle branch
(lib.rs:131-140): `wait` with no timeout, or `wait_timeout` with the given
number of seconds. -/
inductive IdleWait
  | indefinite
  | timed (secs : Nat)
deriving DecidableEq

/-- What the worker does after waking from a wait: return from the thread,
or loop back to re-check the queue. -/
inductive WakeOutcome
  | exited
  | recheck
deriving DecidableEq

/-- Result of one iteration of the inner loop of `Pool::thread`
(lib.rs:121-142): either a task was popped from the queue front, or the
thread waited (in the recorded way) and then either exited or loops. -/
inductive IterResult
  | pop (t : Task) (rest : List Task)
  | waited (w : IdleWait) (outcome : WakeOutcome)
deriving DecidableEq

/-- The exit condition checked after `wait_timeout` (lib.rs:137):
`wait.timed_out() && queue.is_empty() && inner.active.load(..) > inner.min_num`. -/
def exitCheck (timedOut : Bool) (queueAfterWait : List Task) (min_num activeLoad2 : Nat) : Bool :=
  timedOut && queueAfterWait.isEmpty && decide (min_num < activeLoad2)

/-- One iteration of the inner loop of `Pool::thread` (lib.rs:121-142).
`activeLoad` is the `active` value loaded for the floor comparison
(lib.rs:131); `queueAfterWait` and `timedOut` are the queue contents and
timeout flag observed after the wait returns; `activeLoad2` is the fresh
`active` load in the exit condition (lib.rs:137). -/
def innerIter (queue : List Task) (activeLoad min_num : Nat)
    (queueAfterWait : List Task) (timedOut : Bool) (activeLoad2 : Nat) : IterResult :=
  match queue with
  | t :: rest => .pop t rest
  | [] =>
    if activeLoad ≤ min_num then
      .waited .indefinite .recheck
    else if exitCheck timedOut queueAfterWait min_num activeLoad2 then
      .waited (.timed 30) .exited
    else
      .waited (.timed 30) .recheck

/-! ### Counting guards (`struct Count`, lib.rs:34-52) -/

/-- A guard event on one counter: `Count::add` or the guard's `Drop`. -/
inductive GEvent
  | add
  | sub
deriving DecidableEq

/-- Effect of one guard event on the counter value (lib.rs:39 and
lib.rs:50). -/
def gstep (c : Nat) : GEvent → Nat
  | .add => fetchAdd c
  | .sub => fetchSub c

/-- Counter value after a sequence of guard events. -/
def grun : Nat → List GEvent → Nat
  | c, [] => c
  | c, e :: tr => grun (gstep c e) tr

/-- Number of live guards after a sequence of guard events, starting from
a given count. -/
def gLive : Nat → List GEvent → Nat
  | l, [] => l
  | l, .add :: tr => gLive (l + 1) tr
  | l, .sub :: tr => gLive (l - 1) tr

/-- A guard-event trace is well formed when no drop runs without a
matching live guard and the live count stays below 2^64 (fewer than 2^64
simultaneously live guards, which any real process satisfies). -/
def gOk : Nat → List GEvent → Bool
  | _, [] => true
  | l, .add :: tr => decide (l + 1 < W) && gOk (l + 1) tr
  | l, .sub :: tr => decide (0 < l) && gOk (l - 1) tr

/-- Scope of a `Count` guard around a body that may panic (modelled as
`Except.error`): `Count::add` runs first, and the guard's `Drop` runs on
both the normal and the unwind exit path. Returns the body's outcome and
the final counter value. -/
def withCount {ε α : Type} (c : Nat) (body : Except ε α) : Except ε α × Nat :=
  match body with
  | .ok a => (.ok a, fetchSub (fetchAdd c))
  | .error e => (.error e, fetchSub (fetchAdd c))

/-! ### Whole-pool counter system

Event-trace model of the `active`/`waiting` counters together with the
ghost quantities they are meant to track: `live` worker threads (holding
the `_active` guard, lib.rs:111) and `inWait` workers holding a
`_waiting` guard (lib.rs:129). -/

structure CSys where
  active : Nat
  waiting : Nat
  live : Nat
  inWait : Nat

/-- System events: a worker thread starting (its `Count::add(&inner.active)`,
lib.rs:111), a worker registering as waiting (lib.rs:129), that guard
dropping, a worker returning (its active guard dropping, lib.rs:138), and
a `Pool` handle dropping (`impl Drop for Pool`, lib.rs:152-157). -/
inductive CEvent
  | start
  | beginWait
  | endWait
  | exitThread
  | dropPool
deriving DecidableEq

def cstep (s : CSys) : CEvent → CSys
  | .start => { s with active := fetchAdd s.active, live := s.live + 1 }
  | .beginWait => { s with waiting := fetchAdd s.waiting, inWait := s.inWait + 1 }
  | .endWait => { s with waiting := fetchSub s.waiting, inWait := s.inWait - 1 }
  | .exitThread => { s with active := fetchSub s.active, live := s.live - 1 }
  | .dropPool => { s with active := usizeMax }

/-- Structural validity of an event in a state, reflecting the program:
only a live, not-currently-waiting thread can register as waiting; only a
thread holding a waiting guard can drop it; a thread returns only after
its waiting guard has been dropped. Thread starts and handle drops are
always possible. -/
def cvalidStep (s : CSys) : CEvent → Bool
  | .start => true
  | .beginWait => decide (s.inWait < s.live)
  | .endWait => decide (0 < s.inWait)
  | .exitThread => decide (s.inWait < s.live)
  | .dropPool => true

def crun : CSys → List CEvent → CSys
  | s, [] => s
  | s, e :: tr => crun (cstep s e) tr

def cvalid : CSys → List CEvent → Bool
  | _, [] => true
  | s, e :: tr => cvalidStep s e && cvalid (cstep s e) tr

/-- The state right after pool construction: both counters zero, no
threads started yet (the spawned threads increment `active` themselves
when they begin running). -/
def cinit : CSys := ⟨0, 0, 0, 0⟩

/-! ### Pool handle drop (`impl Drop for Pool`, lib.rs:152-157) -/

/-- A pool together with the number of live `Pool` clones and whether
`notify_all` has been invoked on the condition variable. -/
structure PoolSys where
  handles : Nat
  st : Inner
  notifiedAll : Bool

/-- Dropping one `Pool` value. Rust runs `Drop::drop` for `Pool` on every
clone that is dropped — the `Arc<Inner>` strong count only controls when
`Inner`'s memory is freed — so each drop stores `usize::max_value()` into
`active` and calls `notify_all` (lib.rs:152-157), unconditionally. -/
def dropHandle (s : PoolSys) : PoolSys :=
  { handles := s.handles - 1,
    st := { s.st with active := usizeMax },
    notifiedAll := true }

/-! ### Lock poisoning (`.lock().unwrap()`, lib.rs:96 and lib.rs:119) -/

inductive LockError
  | poisoned
deriving DecidableEq

/-- `Mutex::lock` returns `Err(PoisonError)` when a thread panicked while
holding the lock; `.unwrap()` turns that into a panic, modelled as
`Except.error`. -/
def lockQueue (isPoisoned : Bool) (q : List Task) : Except LockError (List Task) :=
  if isPoisoned then .error .poisoned else .ok q

/-- `Pool::spawn` including its initial `self.inner.queue.lock().unwrap()`
(lib.rs:96). -/
def spawnChecked (isPoisoned : Bool) (s : Inner) (t : Task) : Except LockError SpawnEffect :=
  match lockQueue isPoisoned s.queue with
  | .error e => .error e
  | .ok _ => .ok (Pool.spawn s t)

/-- The worker's `inner.queue.lock().unwrap()` at the top of each loop
iteration (lib.rs:119). -/
def workerAcquire (isPoisoned : Bool) (q : List Task) : Except LockError (List Task) :=
  lockQueue isPoisoned q

/-! ### Queue discipline (lib.rs:100-101 push_back, lib.rs:123 pop_front) -/

/-- Queue events: a submission enqueues at the back (`push_back`,
lib.rs:100), a worker removes from the front (`pop_front`, lib.rs:123; a
pop on an empty queue is the worker blocking, which leaves the queue
unchanged). -/
inductive QEvent
  | enq (t : Task)
  | deq

/-- State: the pending queue and the list of tasks handed out so far, in
invocation order. -/
def qstep : List Task × List Task → QEvent → List Task × List Task
  | (q, out), .enq t => (q ++ [t], out)
  | (q, out), .deq =>
    match q with
    | [] => ([], out)
    | t :: rest => (rest, out ++ [t])

def qrun : List Task × List Task → List QEvent → List Task × List Task
  | st, [] => st
  | st, e :: tr => qrun (qstep st e) tr

/-- The tasks enqueued by a trace, in submission order. -/
def enqueuedOf : List QEvent → List Task
  | [] => []
  | .enq t :: tr => t :: enqueuedOf tr
  | .deq :: tr => enqueuedOf tr

/-! ## Helper lemmas -/

lemma fetchAdd_eq (c : Nat) (h : c + 1 < W) : fetchAdd c = c + 1 := by
  simp [fetchAdd, Nat.mod_eq_of_lt h]

lemma fetchSub_eq (c : Nat) (h0 : 0 < c) (hW : c < W) : fetchSub c = c - 1 := by
  unfold fetchSub
  have hWpos : 0 < W := by decide
  have h1 : c + (W - 1) = (c - 1) + W := by omega
  rw [h1, Nat.add_mod_right, Nat.mod_eq_of_lt (by omega)]

lemma qrun_invariant (tr : List QEvent) : ∀ q out : List Task,
    (qrun (q, out) tr).2 ++ (qrun (q, out) tr).1 = out ++ q ++ enqueuedOf tr := by
  induction tr with
  | nil => intro q out; simp [qrun, enqueuedOf]
  | cons e tr ih =>
    intro q out
    cases e with
    | enq t =>
      simp only [qrun, qstep, enqueuedOf]
      rw [ih (q ++ [t]) out]
      simp
    | deq =>
      cases q with
      | nil =>
        simp only [qrun, qstep, enqueuedOf]
        rw [ih [] out]
      | cons t rest =>
        simp only [qrun, qstep, enqueuedOf]
        rw [ih rest (out ++ [t])]
        simp

lemma grun_live_aux (tr : List GEvent) : ∀ l : Nat, l < W → gOk l tr = true →
    grun l tr = gLive l tr := by
  induction tr with
  | nil => intro l _ _; rfl
  | cons e tr ih =>
    intro l hl hok
    cases e with
    | add =>
      simp only [gOk, Bool.and_eq_true, decide_eq_true_eq] at hok
      simp only [grun, gstep, gLive]
      rw [fetchAdd_eq l hok.1]
      exact ih (l + 1) hok.1 hok.2
    | sub =>
      simp only [gOk, Bool.and_eq_true, decide_eq_true_eq] at hok
      simp only [grun, gstep, gLive]
      rw [fetchSub_eq l hok.1 hl]
      exact ih (l - 1) (by omega) hok.2

lemma cinv (tr : List CEvent) : ∀ s : CSys, cvalid s tr = true →
    CEvent.dropPool ∉ tr →
    s.active = s.live → s.waiting = s.inWait → s.inWait ≤ s.live →
    s.live + tr.length < W →
    (crun s tr).active = (crun s tr).live ∧
    (crun s tr).waiting = (crun s tr).inWait ∧
    (crun s tr).inWait ≤ (crun s tr).live := by
  induction tr with
  | nil => intro s _ _ h1 h2 h3 _; exact ⟨h1, h2, h3⟩
  | cons e tr ih =>
    intro s hv hnd h1 h2 h3 hb
    simp only [cvalid, Bool.and_eq_true] at hv
    obtain ⟨hv1, hv2⟩ := hv
    have hnd2 : CEvent.dropPool ∉ tr := fun hm => hnd (List.mem_cons_of_mem e hm)
    have hlen : s.live + tr.length + 1 < W := by
      simp only [List.length_cons] at hb; omega
    cases e with
    | start =>
      have hc : cstep s CEvent.start =
          ⟨fetchAdd s.active, s.waiting, s.live + 1, s.inWait⟩ := rfl
      simp only [crun]
      rw [hc] at hv2 ⊢
      refine ih _ hv2 hnd2 ?_ ?_ ?_ ?_
      · show fetchAdd s.active = s.live + 1
        rw [h1]
        exact fetchAdd_eq _ (by omega)
      · exact h2
      · show s.inWait ≤ s.live + 1
        omega
      · show s.live + 1 + tr.length < W
        omega
    | beginWait =>
      have hw : s.inWait < s.live := by
        simpa [cvalidStep] using hv1
      have hc : cstep s CEvent.beginWait =
          ⟨s.active, fetchAdd s.waiting, s.live, s.inWait + 1⟩ := rfl
      simp only [crun]
      rw [hc] at hv2 ⊢
      refine ih _ hv2 hnd2 ?_ ?_ ?_ ?_
      · exact h1
      · show fetchAdd s.waiting = s.inWait + 1
        rw [h2]
        exact fetchAdd_eq _ (by omega)
      · show s.inWait + 1 ≤ s.live
        omega
      · show s.live + tr.length < W
        omega
    | endWait =>
      have hw : 0 < s.inWait := by
        simpa [cvalidStep] using hv1
      have hc : cstep s CEvent.endWait =
          ⟨s.active, fetchSub s.waiting, s.live, s.inWait - 1⟩ := rfl
      simp only [crun]
      rw [hc] at hv2 ⊢
      refine ih _ hv2 hnd2 ?_ ?_ ?_ ?_
      · exact h1
      · show fetchSub s.waiting = s.inWait - 1
        rw [h2]
        exact fetchSub_eq _ hw (by omega)
      · show s.inWait - 1 ≤ s.live
        omega
      · show s.live + tr.length < W
        omega
    | exitThread =>
      have hw : s.inWait < s.live := by
        simpa [cvalidStep] using hv1
      have hc : cstep s CEvent.exitThread =
          ⟨fetchSub s.active, s.waiting, s.live - 1, s.inWait⟩ := rfl
      simp only [crun]
      rw [hc] at hv2 ⊢
      refine ih _ hv2 hnd2 ?_ ?_ ?_ ?_
      · show fetchSub s.active = s.live - 1
        rw [h1]
        exact fetchSub_eq _ (by omega) (by omega)
      · exact h2
      · show s.inWait ≤ s.live - 1
        omega
      · show s.live - 1 + tr.length < W
        omega
    | dropPool =>
      exact absurd (List.mem_cons_self _ _) hnd

/-! ## Claims -/

/-- Example input for the C1 evaluation: a pool with two live handle
clones, two active workers, one waiting, floor 4, condition variable not
yet signalled. -/
def twoClonePool : PoolSys := ⟨2, ⟨[], 2, 1, 4⟩, false⟩

/-- Claim C1 (code bug witness): the claim says the shutdown signal fires
exactly on the drop of the last `Pool` clone and that dropping a non-last
clone leaves the shared state unsignalled. The code instead runs
`Drop for Pool` on every clone drop: starting from a pool with two live
clones, dropping one leaves a clone alive yet stores `usize::MAX` into
`active` and signals `notify_all`. -/
theorem drop_fires_on_every_clone :
    1 ≤ (dropHandle twoClonePool).handles ∧
    (dropHandle twoClonePool).st.active = usizeMax ∧
    (dropHandle twoClonePool).notifiedAll = true ∧
    twoClonePool.st.active ≠ usizeMax ∧
    twoClonePool.notifiedAll = false :=
  ⟨by decide, rfl, rfl, by decide, rfl⟩

/-- Claim C2, counterexample: it is not true that once `active` holds the
sentinel `usize::MAX`, every subsequent valid operation keeps it at or
above the sentinel: a worker thread exiting (releasing its active
counting guard, `Count::drop`) decrements it below the sentinel. -/
theorem sentinel_not_sticky_cex :
    ¬ (∀ (tr : List CEvent) (e : CEvent),
        cvalid cinit (tr ++ [e]) = true →
        (crun cinit tr).active = usizeMax →
        usizeMax ≤ (crun cinit (tr ++ [e])).active) := by
  intro h
  have h2 := h [.start, .dropPool] .exitThread (by decide) (by decide)
  have h3 : ¬ usizeMax ≤ (crun cinit ([.start, .dropPool] ++ [.exitThread])).active := by
    decide
  exact h3 h2

/-- Claim C2, amended: after the sentinel store, `active` is not held at
`usize::MAX`; a worker thread exiting releases its active counting guard,
whose wrapping `fetch_sub` brings `active` down to `usize::MAX - 1`. -/
theorem active_decrement_after_sentinel (s : CSys) (h : s.active = usizeMax) :
    (cstep s .exitThread).active = usizeMax - 1 ∧ usizeMax - 1 < usizeMax := by
  have hc : cstep s CEvent.exitThread =
      ⟨fetchSub s.active, s.waiting, s.live - 1, s.inWait⟩ := rfl
  rw [hc]
  constructor
  · show fetchSub s.active = usizeMax - 1
    rw [h, fetchSub_eq usizeMax (by decide) (by decide)]
  · decide

theorem active_decrement_after_sentinel_w :
    (cstep ⟨usizeMax, 0, 1, 0⟩ .exitThread).active = usizeMax - 1 ∧
    usizeMax - 1 < usizeMax :=
  active_decrement_after_sentinel ⟨usizeMax, 0, 1, 0⟩ rfl

/-- Claim C3: `Pool::spawn` takes exactly one of two paths decided by the
`waiting` value read at submission time. If `waiting` is zero it spawns a
new thread carrying the task (which the thread runs before entering the
generic loop), leaving the queue untouched and waking nobody; otherwise
it pushes the task onto the back of the queue and wakes exactly one
blocked worker. -/
theorem spawn_two_paths (s : Inner) (t : Task) :
    (s.waiting = 0 →
      Pool.spawn s t = ⟨s, some t, 0⟩ ∧
      threadInitialTasks (Pool.spawn s t).newThread = [t]) ∧
    (s.waiting ≠ 0 →
      Pool.spawn s t = ⟨{ s with queue := s.queue ++ [t] }, none, 1⟩) := by
  constructor
  · intro h
    constructor
    · simp [Pool.spawn, h]
    · simp [Pool.spawn, h, threadInitialTasks]
  · intro h
    simp [Pool.spawn, h]

theorem spawn_two_paths_w :
    (Pool.spawn ⟨[], 0, 0, 4⟩ 7 = ⟨⟨[], 0, 0, 4⟩, some 7, 0⟩ ∧
      threadInitialTasks (Pool.spawn ⟨[], 0, 0, 4⟩ 7).newThread = [7]) ∧
    Pool.spawn ⟨[], 0, 1, 4⟩ 7 = ⟨⟨[7], 0, 1, 4⟩, none, 1⟩ :=
  ⟨(spawn_two_paths ⟨[], 0, 0, 4⟩ 7).1 rfl,
   (spawn_two_paths ⟨[], 0, 1, 4⟩ 7).2 (by decide)⟩

/-- Claim C4: with an empty queue, a worker blocks indefinitely (no
timeout, and it then loops back) when `active ≤ min_num`; when
`active > min_num` it blocks with a 30-second timeout, and after waking it
exits if and only if the wait timed out, the queue is still empty, and
the freshly loaded `active` exceeds `min_num`; in every other wake case
it loops back to re-check the queue. -/
theorem idle_wait_policy (a m a2 : Nat) (q2 : List Task) (tmo : Bool) :
    (a ≤ m → innerIter [] a m q2 tmo a2 = .waited .indefinite .recheck) ∧
    (m < a →
      (innerIter [] a m q2 tmo a2 = .waited (.timed 30) .exited ∨
       innerIter [] a m q2 tmo a2 = .waited (.timed 30) .recheck) ∧
      (innerIter [] a m q2 tmo a2 = .waited (.timed 30) .exited ↔
        tmo = true ∧ q2 = [] ∧ m < a2)) := by
  constructor
  · intro h
    unfold innerIter
    rw [if_pos h]
  · intro h
    have hnle : ¬ a ≤ m := not_le.mpr h
    unfold innerIter
    rw [if_neg hnle]
    by_cases hc : exitCheck tmo q2 m a2 = true
    · rw [if_pos hc]
      simp only [exitCheck, Bool.and_eq_true, decide_eq_true_eq,
        List.isEmpty_iff] at hc
      refine ⟨Or.inl rfl, ?_⟩
      constructor
      · intro _
        exact ⟨hc.1.1, hc.1.2, hc.2⟩
      · intro _
        rfl
    · rw [if_neg hc]
      refine ⟨Or.inr rfl, ?_⟩
      constructor
      · intro he
        exact absurd he (by decide)
      · rintro ⟨hto, hq, ha⟩
        exfalso
        apply hc
        simp [exitCheck, hto, hq, ha]

theorem idle_wait_policy_w :
    innerIter [] 1 2 [] true 3 = .waited .indefinite .recheck ∧
    innerIter [] 3 1 [] true 5 = .waited (.timed 30) .exited :=
  ⟨(idle_wait_policy 1 2 3 [] true).1 (by decide),
   ((idle_wait_policy 3 1 5 [] true).2 (by decide)).2.mpr ⟨rfl, rfl, by decide⟩⟩

/-- Claim C5: among tasks that reach the shared queue the discipline is
FIFO: submissions append at the back, workers remove from the front, so
for every trace of enqueues and dequeues the tasks handed out, followed by
the tasks still pending, equal the tasks enqueued in submission order —
invocation order equals insertion order. -/
theorem queue_fifo (tr : List QEvent) :
    (qrun ([], []) tr).2 ++ (qrun ([], []) tr).1 = enqueuedOf tr := by
  simpa using qrun_invariant tr [] []

/-- Claim C6: `Pool::with_capacity(f)` builds state with `min_num = f`,
empty queue and zero counters, and spawns exactly `f` worker threads,
each with no initial task; `Pool::new` behaves identically with the
detected hardware concurrency as `f`; and `min_num` is never changed by a
submission (it is an immutable field, fixed for the pool's lifetime). -/
theorem construct_spawns_floor (f cpu : Nat) (s : Inner) (t : Task) :
    (Pool.with_capacity f).1 = ⟨[], 0, 0, f⟩ ∧
    (Pool.with_capacity f).1.min_num = f ∧
    (Pool.with_capacity f).2 = List.replicate f none ∧
    (Pool.with_capacity f).2.length = f ∧
    Pool.new cpu = Pool.with_capacity cpu ∧
    (Pool.spawn s t).pool.min_num = s.min_num := by
  refine ⟨rfl, rfl, rfl, by simp [Pool.with_capacity], rfl, ?_⟩
  by_cases h : s.waiting = 0 <;> simp [Pool.spawn, h]

/-- Claim C7: a counting guard increments its counter by exactly one on
construction and decrements it by exactly one on every exit path of its
scope — normal return and panic-driven unwind alike — so along any
well-bracketed guard trace the counter value equals the number of live
guards. -/
theorem count_guard_correct :
    (∀ c : Nat, c + 1 < W → gstep c .add = c + 1) ∧
    (∀ c : Nat, 0 < c → c < W → gstep c .sub = c - 1) ∧
    (∀ (ε α : Type) (body : Except ε α) (c : Nat), c + 1 < W →
      (withCount c body).1 = body ∧ (withCount c body).2 = c) ∧
    (∀ (tr : List GEvent) (l : Nat), l < W → gOk l tr = true →
      grun l tr = gLive l tr) := by
  refine ⟨?_, ?_, ?_, grun_live_aux⟩
  · intro c h
    show fetchAdd c = c + 1
    exact fetchAdd_eq c h
  · intro c h0 hW
    show fetchSub c = c - 1
    exact fetchSub_eq c h0 hW
  · intro ε α body c h
    have hsub : fetchSub (fetchAdd c) = c := by
      rw [fetchAdd_eq c h, fetchSub_eq (c + 1) (by omega) h]
      omega
    cases body with
    | ok a =>
      have hc : withCount c (Except.ok a : Except ε α) =
          (Except.ok a, fetchSub (fetchAdd c)) := rfl
      rw [hc, hsub]
      exact ⟨rfl, rfl⟩
    | error e =>
      have hc : withCount c (Except.error e : Except ε α) =
          (Except.error e, fetchSub (fetchAdd c)) := rfl
      rw [hc, hsub]
      exact ⟨rfl, rfl⟩

theorem count_guard_correct_w :
    gstep 5 .add = 6 ∧
    (withCount 7 (Except.error () : Except Unit Nat)).2 = 7 ∧
    grun 0 [.add, .add, .sub] = gLive 0 [.add, .add, .sub] :=
  ⟨count_guard_correct.1 5 (by decide),
   (count_guard_correct.2.2.1 Unit Nat (Except.error ()) 7 (by decide)).2,
   count_guard_correct.2.2.2 [.add, .add, .sub] 0 (by decide) (by decide)⟩

/-- Claim C8: when the queue mutex is poisoned, `Pool::spawn`'s
`.lock().unwrap()` and the worker's `.lock().unwrap()` both propagate the
poisoned state as a fatal error (a panic) instead of recovering. -/
theorem poisoned_lock_fatal (s : Inner) (t : Task) (q : List Task) :
    spawnChecked true s t = .error .poisoned ∧
    workerAcquire true q = .error .poisoned :=
  ⟨rfl, rfl⟩

/-- The violating trace for C9: a worker starts, a pool handle drops
(storing the sentinel), a second worker starts (wrapping `active` to 0),
and the first worker registers as waiting. -/
def badTrace : List CEvent := [.start, .dropPool, .start, .beginWait]

/-- Claim C9, counterexample: `waiting ≤ active` is not preserved through
every valid operation sequence once the shutdown sentinel store is
involved: after the sentinel store a further worker start wraps `active`
to 0 while a worker can still register as waiting. -/
theorem waiting_le_active_cex :
    ¬ (∀ tr : List CEvent, cvalid cinit tr = true →
        (crun cinit tr).waiting ≤ (crun cinit tr).active) := by
  intro h
  have h2 := h badTrace (by decide)
  have h3 : ¬ (crun cinit badTrace).waiting ≤ (crun cinit badTrace).active := by
    decide
  exact h3 h2

/-- Claim C9, amended: in every valid event sequence that contains no
pool-handle drop (and has fewer than 2^64 events), `waiting ≤ active`
holds: every thread holding a waiting guard also holds an active guard,
and the counters track the live guard counts exactly. -/
theorem waiting_le_active_no_drop (tr : List CEvent)
    (hv : cvalid cinit tr = true) (hnd : CEvent.dropPool ∉ tr)
    (hb : tr.length < W) :
    (crun cinit tr).waiting ≤ (crun cinit tr).active := by
  obtain ⟨h1, h2, h3⟩ :=
    cinv tr cinit hv hnd rfl rfl (Nat.le_refl 0) (by simpa [cinit] using hb)
  omega

theorem waiting_le_active_no_drop_w :
    (crun cinit [.start, .beginWait]).waiting ≤
      (crun cinit [.start, .beginWait]).active :=
  waiting_le_active_no_drop [.start, .beginWait] (by decide) (by decide) (by decide)

/-- Claim C10: `active` uses wrapping unsigned arithmetic, so after a pool
drop stores `usize::MAX`, the next worker start's `fetch_add` wraps
`active` to 0; a worker then loading that value in its idle branch takes
the block-indefinitely path (`active ≤ min_num`) rather than the timed
path, for every floor. -/
theorem active_wraps_to_zero_after_drop (s : CSys) (m a2 : Nat)
    (q2 : List Task) (tmo : Bool) :
    (cstep (cstep s .dropPool) .start).active = 0 ∧
    innerIter [] (cstep (cstep s .dropPool) .start).active m q2 tmo a2 =
      .waited .indefinite .recheck := by
  have hc1 : cstep s CEvent.dropPool =
      ⟨usizeMax, s.waiting, s.live, s.inWait⟩ := rfl
  have hc2 : cstep (⟨usizeMax, s.waiting, s.live, s.inWait⟩ : CSys) CEvent.start =
      ⟨fetchAdd usizeMax, s.waiting, s.live + 1, s.inWait⟩ := rfl
  have h0 : (cstep (cstep s .dropPool) .start).active = 0 := by
    rw [hc1, hc2]
    show fetchAdd usizeMax = 0
    have h1 : usizeMax + 1 = W := by
      have hWpos : 0 < W := by decide
      show W - 1 + 1 = W
      omega
    show (usizeMax + 1) % W = 0
    rw [h1, Nat.mod_self]
  refine ⟨h0, ?_⟩
  rw [h0]
  unfold innerIter
  rw [if_pos (Nat.zero_le m)]

end Threading
